import Mathlib

/-!
Shallow embedding of the pyjsonq `JsonQuery` class (src/pysjonq/parser.py)
and proofs about its filter, shaping and aggregation pipeline.

Python values produced by `json.loads` are modelled by the `JSON` inductive
type; Python `None` is `JSON.null`.  Python `int`/`float` are both modelled
as `JSON.num` over `ℚ`; Python `bool` is `JSON.bool` (note that in Python a
`bool` passes `isinstance(x, int)`, which the embedding reproduces at each
site that performs that check).  Python dicts are insertion-ordered
association lists.
-/

inductive JSON where
  | null : JSON
  | bool : Bool → JSON
  | num : ℚ → JSON
  | str : String → JSON
  | arr : List JSON → JSON
  | obj : List (String × JSON) → JSON

/-- Python `dict.get k`: first binding of `k` in the insertion-ordered
association list, `none` when absent. -/
def assocGet {α : Type} (l : List (String × α)) (k : String) : Option α :=
  match l with
  | [] => none
  | (k', v) :: rest => if k' = k then some v else assocGet rest k

mutual

/-- Modelled from the Python builtin `==` on JSON-shaped values: numbers and
booleans compare numerically (`1 == True` holds in Python); other values
compare structurally.  Used only inside predicate functions and the sorting
comparator, whose exact behaviour no claim depends on. -/
def JSON.pyEq : JSON → JSON → Bool
  | .null, .null => true
  | .bool a, .bool b => a == b
  | .bool a, .num b => (if a then (1 : ℚ) else 0) == b
  | .num a, .bool b => a == (if b then (1 : ℚ) else 0)
  | .num a, .num b => a == b
  | .str a, .str b => a == b
  | .arr a, .arr b => pyEqList a b
  | .obj a, .obj b => pyEqObj a b
  | _, _ => false

def pyEqList : List JSON → List JSON → Bool
  | [], [] => true
  | a :: as, b :: bs => a.pyEq b && pyEqList as bs
  | _, _ => false

def pyEqObj : List (String × JSON) → List (String × JSON) → Bool
  | [], [] => true
  | (ka, va) :: as, (kb, vb) :: bs => ka == kb && va.pyEq vb && pyEqObj as bs
  | _, _ => false

end

mutual

/-- Modelled from the Python builtin `str()` applied to a JSON-shaped value,
used to key the seen-set of `__distinct` and the buckets of `GroupBy`.  The
claims never depend on the exact rendering, only on it being a function of
the value. -/
def JSON.pyStr : JSON → String
  | .null => "None"
  | .bool true => "True"
  | .bool false => "False"
  | .num q => toString q
  | .str s => s
  | .arr xs => "[" ++ pyStrList xs ++ "]"
  | .obj kvs => "\x7b" ++ pyStrObj kvs ++ "\x7d"

def pyStrList : List JSON → String
  | [] => ""
  | [x] => x.pyStr
  | x :: xs => x.pyStr ++ ", " ++ pyStrList xs

def pyStrObj : List (String × JSON) → String
  | [] => ""
  | [(k, v)] => k ++ ": " ++ v.pyStr
  | (k, v) :: kvs => k ++ ": " ++ v.pyStr ++ ", " ++ pyStrObj kvs

end

/-- Fuel-driven splitting of a character list on a non-empty separator,
written without well-founded recursion so that it evaluates inside the
kernel; the fuel is the length of the list being split. -/
def splitCharsFuel (sep : List Char) : Nat → List Char → List (List Char)
  | _, [] => [[]]
  | 0, l => [l]
  | n + 1, c :: cs =>
    if sep.isPrefixOf (c :: cs) then
      [] :: splitCharsFuel sep n (List.drop (sep.length - 1) cs)
    else
      match splitCharsFuel sep n cs with
      | [] => [[c]]
      | t :: ts => (c :: t) :: ts

/-- Modelled from Python `str.split(sep)` for a non-empty separator (the
spec's default separator is a single dot). -/
def splitOnSep (s sep : String) : List String :=
  if sep = "" then [s]
  else (splitCharsFuel sep.toList s.toList.length s.toList).map (fun cs => ⟨cs⟩)

/-- Walk of a split path through nested mappings; any step on a non-mapping
or an absent key is "not found". -/
def resolveSteps : JSON → List String → Option JSON
  | v, [] => match v with | .null => none | v => some v
  | .obj kvs, k :: rest =>
    match assocGet kvs k with
    | some v => resolveSteps v rest
    | none => none
  | _, _ :: _ => none

/-- Modelled from the spec: the external Path Accessor
`resolve(doc, path, sep) -> Value | NotFound` (spec section 6, `helper.py`, not
under src/).  Splits `path` on the separator and walks mappings.  Every call
site in `parser.py` observes the result only through a `value is None` check,
which cannot tell a resolved JSON null from "not found", so a resolved null
is collapsed to `none` here. -/
def getNestedValue (doc : JSON) (path : String) (sep : String) : Option JSON :=
  resolveSteps doc (splitOnSep path sep)

mutual

/-- Modelled from the spec: the external Path Accessor
`delete(doc, path, sep)` (spec sections 6 and 4.8, `helper.py`, not under
src/): removes the path from the document, descending through mappings and
through every element of a sequence ("removes each path from every
element"). -/
def deleteSteps : JSON → List String → JSON
  | .obj kvs, [k] => .obj (kvs.filter (fun kv => kv.1 ≠ k))
  | .obj kvs, k :: k2 :: rest => .obj (deleteStepsObj kvs k (k2 :: rest))
  | .arr xs, ks => .arr (deleteStepsList xs ks)
  | v, _ => v

def deleteStepsObj : List (String × JSON) → String → List String → List (String × JSON)
  | [], _, _ => []
  | (k', v) :: kvs, k, ks =>
    (if k' = k then (k', deleteSteps v ks) else (k', v)) :: deleteStepsObj kvs k ks

def deleteStepsList : List JSON → List String → List JSON
  | [], _ => []
  | x :: xs, ks => deleteSteps x ks :: deleteStepsList xs ks

end

/-- Modelled from the spec: `deleteNestedValue(doc, path, sep)` of
`helper.py` (not under src/), the path-splitting wrapper of `deleteSteps`. -/
def deleteNestedValue (doc : JSON) (path : String) (sep : String) : JSON :=
  deleteSteps doc (splitOnSep path sep)

/-- Modelled from the spec: the external
`splitAlias(pathSpec, sep) -> (cleanPath, aliasName)` (spec section 6,
`helper.makeAlias`, not under src/); a spec of the form `path as alias`
yields that pair, otherwise the alias defaults to the last path segment. -/
def makeAlias (s : String) (sep : String) : String × String :=
  match splitOnSep s " as " with
  | [p, a] => (p, a)
  | _ => (s, (splitOnSep s sep).getLastD s)

/-- Lexicographic code-point comparison of character lists, the model of the
Python builtin `<` on strings, written so that it evaluates inside the
kernel. -/
def charListLt : List Char → List Char → Bool
  | [], [] => false
  | [], _ :: _ => true
  | _ :: _, [] => false
  | a :: as, b :: bs => if a = b then charListLt as bs else decide (a < b)

/-- Numeric view shared by the Python comparison builtins: `int`, `float` and
`bool` (a Python `bool` is an `int`). -/
def toNumQ : JSON → Option ℚ
  | .num q => some q
  | .bool b => some (if b then 1 else 0)
  | _ => none

mutual

/-- Modelled from the Python builtin `<`: numbers and booleans compare
numerically, strings and sequences lexicographically; any other combination
raises `TypeError`, modelled as `none`. -/
def JSON.pyLt : JSON → JSON → Option Bool
  | .num x, .num y => some (decide (x < y))
  | .num x, .bool y => some (decide (x < (if y then (1 : ℚ) else 0)))
  | .bool x, .num y => some (decide ((if x then (1 : ℚ) else 0) < y))
  | .bool x, .bool y => some (decide ((if x then (1 : ℚ) else 0) < (if y then (1 : ℚ) else 0)))
  | .str x, .str y => some (charListLt x.toList y.toList)
  | .arr x, .arr y => pyLtList x y
  | _, _ => none

def pyLtList : List JSON → List JSON → Option Bool
  | [], [] => some false
  | [], _ :: _ => some true
  | _ :: _, [] => some false
  | a :: as, b :: bs => if a.pyEq b then pyLtList as bs else a.pyLt b

end

/-- Modelled from the Python builtin stable sort: each element is placed
after every already-placed element it is not strictly below, so equal keys
keep their original order; a failing comparison (`TypeError`) makes the
whole sort fail. -/
def insertStable {α : Type} (lt : α → α → Option Bool) (x : α) : List α → Option (List α)
  | [] => some [x]
  | y :: ys =>
    match lt x y with
    | none => none
    | some true => some (x :: y :: ys)
    | some false => (insertStable lt x ys).map (fun zs => y :: zs)

/-- Left-to-right driver of the stable sort: `acc` holds the already sorted
prefix. -/
def sortLoop {α : Type} (lt : α → α → Option Bool) : List α → List α → Option (List α)
  | acc, [] => some acc
  | acc, x :: xs =>
    match insertStable lt x acc with
    | none => none
    | some acc2 => sortLoop lt acc2 xs

/-- Modelled from Python `list.sort(reverse=reverse, key=key)` as invoked by
`Sort`: stable sort by `key` (identity when `None` is passed), comparisons
reversed when `reverse` is set. -/
def pySortList (key : Option (JSON → JSON)) (rev : Bool) (l : List JSON) : Option (List JSON) :=
  let kf := fun a => (key.map (fun f => f a)).getD a
  let lt := fun a b => if rev then JSON.pyLt (kf b) (kf a) else JSON.pyLt (kf a) (kf b)
  sortLoop lt [] l

/-- Modelled from Python `operator.itemgetter(attr)` applied to a JSON value:
subscripting a mapping; `KeyError` on an absent key and `TypeError` on a
non-mapping are both fatal, modelled as `none`. -/
def itemgetterAttr (attr : String) : JSON → Option JSON
  | .obj kvs => assocGet kvs attr
  | _ => none

/-- Modelled from Python `sorted(json_list, key=itemgetter(attr), reverse=reverse)`
as invoked by `SortBy`: all keys are extracted first, then a stable sort by
key runs; a missing attribute or failing comparison is fatal (`none`). -/
def pySortByAttr (attr : String) (rev : Bool) (l : List JSON) : Option (List JSON) :=
  match l.mapM (fun a => (itemgetterAttr attr a).map (fun k => (k, a))) with
  | none => none
  | some pairs =>
    let lt := fun (p q : JSON × JSON) => if rev then JSON.pyLt q.1 p.1 else JSON.pyLt p.1 q.1
    (sortLoop lt [] pairs).map (fun ps => ps.map Prod.snd)

/-- Predicate type of the operator registry: `(fieldValue, operand) -> bool`
(`QueryFunc` of `query.py`). -/
def QueryFunc : Type := JSON → JSON → Bool

/-- Length of a JSON value as Python `len` sees it. -/
def pyLen : JSON → Option Nat
  | .str s => some s.length
  | .arr xs => some xs.length
  | .obj kvs => some kvs.length
  | _ => none

/-- Crude substring test backing the loose `contains` predicates. -/
def strContains (s p : String) : Bool :=
  p = "" || (s.splitOn p).length > 1

/-- Modelled from the spec: the external default operator set (spec section
4.3, `query.defaultQueries`, not under src/) — fourteen predicates keyed by
the `QueryOperator` member names used in `parser.py`.  The claims depend only
on which names are present, never on the predicate bodies. -/
def defaultQueries : List (String × QueryFunc) :=
  [ ("eq", fun v o => v.pyEq o),
    ("notEq", fun v o => !(v.pyEq o)),
    ("isIn", fun v o => match o with | .arr xs => xs.any (fun x => x.pyEq v) | _ => false),
    ("notIn", fun v o => match o with | .arr xs => !(xs.any (fun x => x.pyEq v)) | _ => false),
    ("holds", fun v o => match v with | .arr xs => xs.any (fun x => x.pyEq o) | _ => false),
    ("notHolds", fun v o => match v with | .arr xs => !(xs.any (fun x => x.pyEq o)) | _ => false),
    ("startsWith", fun v o => match v, o with | .str s, .str p => s.startsWith p | _, _ => false),
    ("endsWith", fun v o => match v, o with | .str s, .str p => s.endsWith p | _, _ => false),
    ("contains", fun v o => match v, o with | .str s, .str p => strContains s p | _, _ => v.pyEq o),
    ("strictContains", fun v o => match v, o with | .str s, .str p => strContains s p | _, _ => false),
    ("notContains", fun v o => match v, o with | .str s, .str p => !(strContains s p) | _, _ => !(v.pyEq o)),
    ("notStrictContains", fun v o => match v, o with | .str s, .str p => !(strContains s p) | _, _ => false),
    ("lenEq", fun v o => match pyLen v, toNumQ o with | some n, some q => decide ((n : ℚ) = q) | _, _ => false),
    ("lenNotEq", fun v o => match pyLen v, toNumQ o with | some n, some q => decide ((n : ℚ) ≠ q) | _, _ => false) ]

/-- One filter clause, `Query(key, operator, value)` of `query.py`, as
constructed by `Where`/`OrWhere`. -/
structure Query where
  key : String
  operator : String
  value : JSON

/-- The mutable state of a `JsonQuery` instance: the private fields set up by
`JsonQuery.__init__` (parser.py).  `json.loads` is external, so the embedding
starts from the already parsed root value. -/
structure JsonQuery where
  separator : String
  root_json_content : JSON
  json_content : JSON
  query_map : List (String × QueryFunc)
  query_index : Nat
  offset_records : Int
  limit_records : Int
  queries : List (List Query)
  dropped_properties : List String
  attributes : List String
  distinct_property : String

/-- `JsonQuery.__init__(json_string, separator)` after `json.loads`: both
document references point at the parsed root, the registry is seeded with the
defaults, and all pending state is inactive. -/
def mkJsonQuery (root : JSON) (sep : String) : JsonQuery :=
  { separator := sep
    root_json_content := root
    json_content := root
    query_map := defaultQueries
    query_index := 0
    offset_records := 0
    limit_records := 0
    queries := []
    dropped_properties := []
    attributes := []
    distinct_property := "" }

namespace JsonQuery

/-- Inner clause loop of `__findInDict` over one group; the `Bool` argument
is `and_passed`.  `none` models the `return result` abort on an operator
missing from the registry; a clause whose path does not resolve assigns
`and_passed = False` and continues with the remaining clauses of the same
group. -/
def evalGroup (qm : List (String × QueryFunc)) (sep : String)
    (m : List (String × JSON)) : List Query → Bool → Option Bool
  | [], acc => some acc
  | q :: qs, acc =>
    match assocGet qm q.operator with
    | none => none
    | some cf =>
      match getNestedValue (.obj m) q.key sep with
      | none => evalGroup qm sep m qs false
      | some v => evalGroup qm sep m qs (acc && cf v q.value)

/-- Outer group loop of `__findInDict`; the `Bool` argument is `or_passed`. -/
def evalGroups (qm : List (String × QueryFunc)) (sep : String)
    (m : List (String × JSON)) : List (List Query) → Bool → Option Bool
  | [], acc => some acc
  | g :: gs, acc =>
    match evalGroup qm sep m g true with
    | none => none
    | some andPassed => evalGroups qm sep m gs (acc || andPassed)

/-- `__findInDict(value_map)`: `[value_map]` when some group's clauses all
passed, `[]` otherwise; on an operator missing from the registry the method
returns its local accumulated result — still empty — at once. -/
def findInDict (qm : List (String × QueryFunc)) (sep : String)
    (queries : List (List Query)) (m : List (String × JSON)) : List JSON :=
  match evalGroups qm sep m queries false with
  | none => []
  | some true => [.obj m]
  | some false => []

/-- `__findInList(value_list)`: mapping elements contribute their
`__findInDict` result in order, everything else is dropped. -/
def findInList (qm : List (String × QueryFunc)) (sep : String)
    (queries : List (List Query)) : List JSON → List JSON
  | [] => []
  | v :: vs =>
    match v with
    | .obj m => findInDict qm sep queries m ++ findInList qm sep queries vs
    | _ => findInList qm sep queries vs

/-- `__processQuery`: filters a sequence working view, otherwise a no-op. -/
def processQuery (s : JsonQuery) : JsonQuery :=
  match s.json_content with
  | .arr l => { s with json_content := .arr (findInList s.query_map s.separator s.queries l) }
  | _ => s

/-- Element loop of `__distinct`; `seen` holds the stringified keys of the
map `m`. -/
def distinctList (prop sep : String) : List JSON → List String → List JSON
  | [], _ => []
  | a :: rest, seen =>
    match a with
    | .obj kvs =>
      (match getNestedValue (.obj kvs) prop sep with
       | some v =>
         if seen.contains v.pyStr then distinctList prop sep rest seen
         else .obj kvs :: distinctList prop sep rest (v.pyStr :: seen)
       | none => distinctList prop sep rest seen)
    | _ => distinctList prop sep rest seen

/-- `__distinct`: the working view becomes the deduplicated list; `dt` is
assigned unconditionally, so a non-sequence view becomes the empty list. -/
def distinctStep (s : JsonQuery) : JsonQuery :=
  match s.json_content with
  | .arr l => { s with json_content := .arr (distinctList s.distinct_property s.separator l []) }
  | _ => { s with json_content := .arr [] }

/-- Python dict assignment `tmap[alias] = value`: updates an existing key in
place, otherwise appends. -/
def objInsert (kvs : List (String × JSON)) (k : String) (v : JSON) : List (String × JSON) :=
  match kvs with
  | [] => [(k, v)]
  | (k', v') :: rest => if k' = k then (k', v) :: rest else (k', v') :: objInsert rest k v

/-- Attribute loop of `__only` for one element: builds `tmap`, skipping
attributes whose path does not resolve. -/
def onlyElem (attrs : List String) (sep : String) (am : JSON) : List (String × JSON) :=
  attrs.foldl (fun tmap attr =>
    match getNestedValue am (makeAlias attr sep).1 sep with
    | none => tmap
    | some v => objInsert tmap (makeAlias attr sep).2 v) []

/-- Element loop of `__only`: elements whose `tmap` stays empty are dropped
whole. -/
def onlyList (attrs : List String) (sep : String) : List JSON → List JSON
  | [] => []
  | am :: rest =>
    if (onlyElem attrs sep am).length > 0 then .obj (onlyElem attrs sep am) :: onlyList attrs sep rest
    else onlyList attrs sep rest

/-- `__only`: `result` is assigned unconditionally, so a non-sequence view
becomes the empty list. -/
def onlyStep (s : JsonQuery) : JsonQuery :=
  match s.json_content with
  | .arr l => { s with json_content := .arr (onlyList s.attributes s.separator l) }
  | _ => { s with json_content := .arr [] }

/-- Gate `if len(self.__queries) > 0` of `__prepare`. -/
def processMaybe (s : JsonQuery) : JsonQuery :=
  if s.queries.length > 0 then processQuery s else s

/-- Gate `if self.__distinct_property != ""` shared by `__prepare`,
`__getAggregationValues` and `Pluck`. -/
def distinctMaybe (s : JsonQuery) : JsonQuery :=
  if s.distinct_property ≠ "" then distinctStep s else s

/-- Gate `if len(self.__attributes) > 0` of `__prepare`. -/
def onlyMaybe (s : JsonQuery) : JsonQuery :=
  if s.attributes.length > 0 then onlyStep s else s

/-- `__prepare`: filter, then distinct, then projection, each only when its
pending state is active; finally the group index is reset to 0. -/
def prepare (s : JsonQuery) : JsonQuery :=
  { onlyMaybe (distinctMaybe (processMaybe s)) with query_index := 0 }

/-- `__offset`: a no-op on a non-sequence view or a negative offset;
otherwise the branch compares the sequence length with the LIMIT counter
(`len(json_content) >= self.__limit_records`), slicing from the offset when
it holds and clearing the list when it does not. -/
def offsetStep (s : JsonQuery) : JsonQuery :=
  match s.json_content with
  | .arr l =>
    if s.offset_records < 0 then s
    else if (l.length : Int) ≥ s.limit_records then
      { s with json_content := .arr (l.drop s.offset_records.toNat) }
    else { s with json_content := .arr [] }
  | _ => s

/-- `__limit`: truncates a sequence view longer than the (positive) limit. -/
def limitStep (s : JsonQuery) : JsonQuery :=
  match s.json_content with
  | .arr l =>
    if s.limit_records ≤ 0 then s
    else if (l.length : Int) > s.limit_records then
      { s with json_content := .arr (l.take s.limit_records.toNat) }
    else s
  | _ => s

/-- `__drop`: deletes each dropped path from the working view. -/
def dropStep (s : JsonQuery) : JsonQuery :=
  { s with json_content :=
      s.dropped_properties.foldl (fun c node => deleteNestedValue c node s.separator) s.json_content }

/-- Gate `if self.__offset_records != 0` of `Get`. -/
def offsetMaybe (s : JsonQuery) : JsonQuery :=
  if s.offset_records ≠ 0 then offsetStep s else s

/-- Gate `if self.__limit_records != 0` shared by `Get`,
`__getAggregationValues` and `Pluck`. -/
def limitMaybe (s : JsonQuery) : JsonQuery :=
  if s.limit_records ≠ 0 then limitStep s else s

/-- Gate `if len(self.__dropped_properties) != 0` of `Get`. -/
def dropMaybe (s : JsonQuery) : JsonQuery :=
  if s.dropped_properties.length ≠ 0 then dropStep s else s

/-- `Get()`: runs the pipeline, then offset, limit and drop, each gated on
its pending state being active, and returns the working view; the state
keeps every mutation the call performed. -/
def Get (s : JsonQuery) : JSON × JsonQuery :=
  ((dropMaybe (limitMaybe (offsetMaybe (prepare s)))).json_content,
   dropMaybe (limitMaybe (offsetMaybe (prepare s))))

/-- Appends `q` to the group at index `i`; `none` models the `IndexError`
raised by `self.__queries[self.__query_index]` when the index is out of
range. -/
def appendAt (gs : List (List Query)) (i : Nat) (q : Query) : Option (List (List Query)) :=
  match gs, i with
  | [], _ => none
  | g :: rest, 0 => some ((g ++ [q]) :: rest)
  | g :: rest, Nat.succ n => (appendAt rest n q).map (fun rest2 => g :: rest2)

/-- `Where(key, cond, val)`: on a fresh query (group index 0 and no groups)
a first group is created, otherwise the clause is appended to the group at
the current index — `none` when that index is out of range.  A
`QueryOperator` argument contributes its `value` string, so `cond` is a
string here. -/
def Where (s : JsonQuery) (key cond : String) (val : JSON) : Option JsonQuery :=
  let q : Query := { key := key, operator := cond, value := val }
  if s.query_index = 0 ∧ s.queries.length = 0 then
    some { s with queries := s.queries ++ [[q]] }
  else
    (appendAt s.queries s.query_index q).map (fun gs => { s with queries := gs })

/-- `OrWhere(key, cond, val)`: increments the group index and appends a new
one-clause group. -/
def OrWhere (s : JsonQuery) (key cond : String) (val : JSON) : JsonQuery :=
  { s with query_index := s.query_index + 1,
           queries := s.queries ++ [[{ key := key, operator := cond, value := val }]] }

/-- `More()`: commits the `Get()` result as the new root and clears the
queries, attributes and dropped properties.  The source then assigns
`self.queryIndex`, `self.limitRecords` and `self.distinctProperty` — fresh
attribute names that do not match the name-mangled private fields — and never
mentions the offset counter, so offset, limit and distinct keep their values;
the group index is 0 only because `__prepare` ran inside `Get`. -/
def More (s : JsonQuery) : JsonQuery :=
  { (Get s).2 with root_json_content := (Get s).1,
                   queries := [], attributes := [], dropped_properties := [] }

/-- Bucket update of `GroupBy`: a first occurrence creates `dt[key] = [a]` at
the end, later ones append to the existing bucket. -/
def dtInsert (dt : List (String × List JSON)) (k : String) (a : JSON) :
    List (String × List JSON) :=
  match dt with
  | [] => [(k, [a])]
  | (k', xs) :: rest => if k' = k then (k', xs ++ [a]) :: rest else (k', xs) :: dtInsert rest k a

/-- Element loop of `GroupBy`: `none` models the `return self` abort when a
mapping element does not resolve the attribute; non-mapping elements are
skipped. -/
def groupByList (attr sep : String) :
    List JSON → List (String × List JSON) → Option (List (String × List JSON))
  | [], dt => some dt
  | a :: rest, dt =>
    match a with
    | .obj kvs =>
      (match getNestedValue (.obj kvs) attr sep with
       | none => none
       | some v => groupByList attr sep rest (dtInsert dt v.pyStr (.obj kvs)))
    | _ => groupByList attr sep rest dt

/-- `GroupBy(attr)`: prepares, then groups a sequence view into a mapping
from stringified attribute value to the list of elements holding it; an
unresolvable attribute on a mapping element aborts, leaving the prepared
state untouched.  A non-sequence view is replaced by the empty mapping. -/
def GroupBy (s : JsonQuery) (attr : String) : JsonQuery :=
  match (prepare s).json_content with
  | .arr l =>
    (match groupByList attr (prepare s).separator l [] with
     | none => prepare s
     | some dt => { prepare s with json_content := .obj (dt.map (fun kv => (kv.1, JSON.arr kv.2))) })
  | _ => { prepare s with json_content := .obj [] }

/-- `Sort(key, reverse)`: prepares first, then stable-sorts a sequence view
in place; `none` models a `TypeError` escaping from a comparison. -/
def Sort' (s : JsonQuery) (key : Option (JSON → JSON)) (rev : Bool) : Option JsonQuery :=
  match (prepare s).json_content with
  | .arr l => (pySortList key rev l).map (fun l2 => { prepare s with json_content := .arr l2 })
  | _ => some (prepare s)

/-- `SortBy(attr, reverse)`: sorts the current working view directly — there
is no `__prepare` call — by the required attribute; `none` models the
`KeyError`/`TypeError` escaping from `sorted`. -/
def SortBy (s : JsonQuery) (attr : String) (rev : Bool) : Option JsonQuery :=
  match s.json_content with
  | .arr l => (pySortByAttr attr rev l).map (fun l2 => { s with json_content := .arr l2 })
  | _ => some s

/-- `First()`: prepares, then returns element 0 of a sequence view — `none`
models the `IndexError` on an empty one — and Python `None`, `JSON.null`, on
a non-sequence view. -/
def First (s : JsonQuery) : Option JSON :=
  match (prepare s).json_content with
  | .arr [] => none
  | .arr (x :: _) => some x
  | _ => some .null

/-- `Last()`: prepares, then returns element -1 of a sequence view — `none`
models the `IndexError` on an empty one — and `JSON.null` on a non-sequence
view. -/
def Last (s : JsonQuery) : Option JSON :=
  match (prepare s).json_content with
  | .arr [] => none
  | .arr (x :: xs) => some (xs.getLastD x)
  | _ => some .null

/-- Element loop of `__getFloatValFromArray` with accumulator `floats`.
`return []` in the source discards the accumulator and yields the empty
list at once: scalars are collected only when no property was supplied, and
a mapping element whose first property is absent or holds a value failing
the `isinstance(_, (float, int))` check — which a Python `bool` passes —
empties the whole collection. -/
def floatsLoop (props : List String) : List JSON → List ℚ → List ℚ
  | [], acc => acc
  | a :: rest, acc =>
    match toNumQ a with
    | some q => if props.length > 0 then [] else floatsLoop props rest (acc ++ [q])
    | none =>
      match a with
      | .obj kvs =>
        if props.length = 0 then []
        else
          (match (assocGet kvs (props.headD "")).bind toNumQ with
           | some q => floatsLoop props rest (acc ++ [q])
           | none => [])
      | _ => floatsLoop props rest acc

/-- `__getFloatValFromArray(json_list, *properties)`. -/
def getFloatValFromArray (l : List JSON) (props : List String) : List ℚ :=
  floatsLoop props l []

/-- `__getAggregationValues(*properties)`: prepares, re-applies distinct and
limit when active, then collects numeric values from the working view; a
single mapping consults its first property directly. -/
def getAggregationValues (s : JsonQuery) (props : List String) : List ℚ :=
  match (limitMaybe (distinctMaybe (prepare s))).json_content with
  | .arr l => getFloatValFromArray l props
  | .obj kvs =>
    if props.length = 0 then []
    else
      (match (assocGet kvs (props.headD "")).bind toNumQ with
       | some q => [q]
       | none => [])
  | _ => []

/-- `Sum(*properties)`: Python `sum` of the collected values, 0 on an empty
collection. -/
def Sum (s : JsonQuery) (props : List String) : ℚ :=
  (getAggregationValues s props).sum

/-- `Min(*properties)`: Python `min`, whose `ValueError` on an empty
collection is modelled as `none`. -/
def Min (s : JsonQuery) (props : List String) : Option ℚ :=
  match getAggregationValues s props with
  | [] => none
  | x :: xs => some (xs.foldl (fun a b => if b < a then b else a) x)

/-- `Max(*properties)`: Python `max`, whose `ValueError` on an empty
collection is modelled as `none`. -/
def Max (s : JsonQuery) (props : List String) : Option ℚ :=
  match getAggregationValues s props with
  | [] => none
  | x :: xs => some (xs.foldl (fun a b => if a < b then b else a) x)

/-- `Avg(*properties)`: the sum divided by the length, whose
`ZeroDivisionError` on an empty collection is modelled as `none`. -/
def Avg (s : JsonQuery) (props : List String) : Option ℚ :=
  match getAggregationValues s props with
  | [] => none
  | x :: xs => some ((x :: xs).sum / ((x :: xs).length : ℚ))

end JsonQuery

namespace JsonQuery

/-- Spec-side truth of one clause on a mapping element (spec section 4.2):
the operator must be registered, the path must resolve, and the predicate
must hold; a clause whose path fails to resolve is false. -/
def clauseTrue (qm : List (String × QueryFunc)) (sep : String)
    (m : List (String × JSON)) (q : Query) : Bool :=
  match assocGet qm q.operator, getNestedValue (.obj m) q.key sep with
  | some cf, some v => cf v q.value
  | _, _ => false

/-- Spec-side element match (spec sections 4.2 and 8): OR across groups of
the AND within each group. -/
def specMatches (qm : List (String × QueryFunc)) (sep : String)
    (queries : List (List Query)) (m : List (String × JSON)) : Bool :=
  queries.any (fun g => g.all (fun q => clauseTrue qm sep m q))

/-- Spec-side filter of a sequence (spec section 4.2): keep the matching
mapping elements in their original order, drop everything else. -/
def specFilter (qm : List (String × QueryFunc)) (sep : String)
    (queries : List (List Query)) (l : List JSON) : List JSON :=
  l.filter (fun v => match v with | .obj m => specMatches qm sep queries m | _ => false)

/-- Spec-side append of a clause to the last group, creating the first group
when none exists (spec section 3). -/
def appendToLast (gs : List (List Query)) (q : Query) : List (List Query) :=
  match gs with
  | [] => [[q]]
  | [g] => [g ++ [q]]
  | g :: g2 :: rest => g :: appendToLast (g2 :: rest) q

/-- The pending group index points at the last group. -/
def goodIdx (s : JsonQuery) : Prop := s.query_index + 1 = s.queries.length

/-- Concrete instance used by the C1 witness: a two-group query with a
registered `eq` operator over four elements. -/
def exC1 : JsonQuery :=
  { mkJsonQuery (JSON.arr [.obj [("a", .num 1)], .obj [("a", .num 2)], .num 7,
       .obj [("b", .num 1)]]) "." with
     query_map := [("eq", fun v o => v.pyEq o)],
     queries := [[{ key := "a", operator := "eq", value := JSON.num 1 }],
                 [{ key := "b", operator := "eq", value := JSON.num 1 }]] }

/-- Concrete instance used by the C2 witness: one clause naming an operator
absent from its (empty) registry. -/
def exC2 : JsonQuery :=
  { mkJsonQuery (JSON.arr [.obj [("a", .num 1)], .obj [("a", .num 2)]]) "." with
     query_map := [],
     queries := [[{ key := "a", operator := "weird", value := JSON.num 1 }]] }


end JsonQuery

namespace JsonQuery

/-- Concrete instance used by the C3 witness: `Offset(2)` with limit
inactive over `[1,2,3,4,5]`. -/
def exC3 : JsonQuery :=
  { mkJsonQuery (JSON.arr [.num 1, .num 2, .num 3, .num 4, .num 5]) "." with
     offset_records := 2 }

end JsonQuery

namespace JsonQuery

/-- Concrete instance used by the C5 witness: the second element lacks the
grouping attribute `t`. -/
def exC5 : JsonQuery :=
  mkJsonQuery (JSON.arr [.obj [("t", .str "a")], .obj [("u", .num 1)]]) "."

end JsonQuery

namespace JsonQuery

/-- Concrete instance used by the C6 counterexample: a limit, an offset and
a distinct key are all pending when `More` runs. -/
def exC6 : JsonQuery :=
  { mkJsonQuery (JSON.arr [.num 1, .num 2, .num 3]) "." with
     limit_records := 2, offset_records := 1, distinct_property := "k" }

end JsonQuery

namespace JsonQuery

/-- Concrete fresh builder used by the C7 counterexample and witness. -/
def exC7 : JsonQuery := mkJsonQuery (JSON.arr []) "."

end JsonQuery

namespace JsonQuery

/-- Concrete instance used by C8: a positive pending offset over
`[1,2,3,4,5]`, exercised by two successive `Get()` calls. -/
def exC8 : JsonQuery :=
  { mkJsonQuery (JSON.arr [.num 1, .num 2, .num 3, .num 4, .num 5]) "." with
     offset_records := 2 }

end JsonQuery

namespace JsonQuery

/-- Concrete instance used by the C9 witness: two mappings sorted by their
attribute `a`. -/
def exC9 : JsonQuery :=
  mkJsonQuery (JSON.arr [.obj [("a", .str "b")], .obj [("a", .str "a")]]) "."

end JsonQuery

/-- Python `isinstance(x, list)` on a JSON value, the guard both `First`
and `Last` test after preparing. -/
def JSON.isList : JSON → Bool
  | .arr _ => true
  | _ => false

namespace JsonQuery

/-- Concrete instance used by C10: the prepared view is the one-element
sequence `[null]`. -/
def exC10 : JsonQuery := mkJsonQuery (JSON.arr [.null]) "."

/-- Concrete instance used by C10: the prepared view is the empty
sequence. -/
def exC10b : JsonQuery := mkJsonQuery (JSON.arr []) "."

/-- Concrete instance used by C10: the prepared view is not a sequence. -/
def exC10c : JsonQuery := mkJsonQuery (JSON.num 3) "."

end JsonQuery

namespace JsonQuery

/-- Concrete instance used by the C4 counterexample: the first property
holds the JSON boolean `true`, which Python's `isinstance(_, (float, int))`
check accepts. -/
def exC4 : JsonQuery := mkJsonQuery (JSON.arr [.obj [("x", .bool true)]]) "."

/-- Concrete instance used by the C4 witness: the first property holds a
string, which fails the numeric check. -/
def exC4b : JsonQuery := mkJsonQuery (JSON.arr [.obj [("x", .str "s")]]) "."

end JsonQuery

namespace JsonQuery

theorem evalGroup_of_present (qm : List (String × QueryFunc)) (sep : String)
    (m : List (String × JSON)) (g : List Query)
    (h : ∀ q ∈ g, (assocGet qm q.operator).isSome) (acc : Bool) :
    evalGroup qm sep m g acc = some (acc && g.all (fun q => clauseTrue qm sep m q)) := by
  induction g generalizing acc with
  | nil => simp [evalGroup]
  | cons q qs ih =>
    have hq := h q (List.mem_cons_self q qs)
    have hqs : ∀ x ∈ qs, (assocGet qm x.operator).isSome :=
      fun x hx => h x (List.mem_cons_of_mem q hx)
    obtain ⟨cf, hcf⟩ := Option.isSome_iff_exists.mp hq
    cases hv : getNestedValue (.obj m) q.key sep with
    | none =>
      simp [evalGroup, hcf, hv, ih hqs, clauseTrue]
    | some v =>
      simp [evalGroup, hcf, hv, ih hqs, clauseTrue, Bool.and_assoc]

theorem evalGroups_of_present (qm : List (String × QueryFunc)) (sep : String)
    (m : List (String × JSON)) (gs : List (List Query))
    (h : ∀ g ∈ gs, ∀ q ∈ g, (assocGet qm q.operator).isSome) (acc : Bool) :
    evalGroups qm sep m gs acc =
      some (acc || gs.any (fun g => g.all (fun q => clauseTrue qm sep m q))) := by
  induction gs generalizing acc with
  | nil => simp [evalGroups]
  | cons g gs ih =>
    have hg := h g (List.mem_cons_self g gs)
    have hgs : ∀ x ∈ gs, ∀ q ∈ x, (assocGet qm q.operator).isSome :=
      fun x hx => h x (List.mem_cons_of_mem g hx)
    simp [evalGroups, evalGroup_of_present qm sep m g hg true, ih hgs, Bool.or_assoc]

theorem findInDict_of_present (qm : List (String × QueryFunc)) (sep : String)
    (queries : List (List Query)) (m : List (String × JSON))
    (h : ∀ g ∈ queries, ∀ q ∈ g, (assocGet qm q.operator).isSome) :
    findInDict qm sep queries m =
      if specMatches qm sep queries m then [.obj m] else [] := by
  unfold findInDict
  rw [evalGroups_of_present qm sep m queries h false]
  unfold specMatches
  cases queries.any (fun g => g.all (fun q => clauseTrue qm sep m q)) <;> simp

theorem findInList_eq_specFilter (qm : List (String × QueryFunc)) (sep : String)
    (queries : List (List Query))
    (h : ∀ g ∈ queries, ∀ q ∈ g, (assocGet qm q.operator).isSome) (l : List JSON) :
    findInList qm sep queries l = specFilter qm sep queries l := by
  induction l with
  | nil => simp [findInList, specFilter]
  | cons v vs ih =>
    cases v with
    | obj m =>
      rw [findInList, findInDict_of_present qm sep queries m h]
      unfold specFilter at ih ⊢
      rw [List.filter_cons]
      cases hm : specMatches qm sep queries m <;> simp [ih, hm]
    | null => simpa [findInList, specFilter, List.filter_cons] using ih
    | bool b => simpa [findInList, specFilter, List.filter_cons] using ih
    | num q => simpa [findInList, specFilter, List.filter_cons] using ih
    | str t => simpa [findInList, specFilter, List.filter_cons] using ih
    | arr xs => simpa [findInList, specFilter, List.filter_cons] using ih

end JsonQuery

namespace JsonQuery

theorem evalGroup_of_missing (qm : List (String × QueryFunc)) (sep : String)
    (m : List (String × JSON)) (g : List Query)
    (h : ∃ q ∈ g, assocGet qm q.operator = none) (acc : Bool) :
    evalGroup qm sep m g acc = none := by
  induction g generalizing acc with
  | nil => simp at h
  | cons q qs ih =>
    obtain ⟨x, hx, hnone⟩ := h
    rcases List.mem_cons.mp hx with rfl | hxs
    · simp [evalGroup, hnone]
    · cases hq : assocGet qm q.operator with
      | none => simp [evalGroup, hq]
      | some cf =>
        cases hv : getNestedValue (.obj m) q.key sep with
        | none => simpa [evalGroup, hq, hv] using ih ⟨x, hxs, hnone⟩ false
        | some v => simpa [evalGroup, hq, hv] using ih ⟨x, hxs, hnone⟩ (acc && cf v q.value)

theorem evalGroups_of_missing (qm : List (String × QueryFunc)) (sep : String)
    (m : List (String × JSON)) (gs : List (List Query))
    (h : ∃ g ∈ gs, ∃ q ∈ g, assocGet qm q.operator = none) (acc : Bool) :
    evalGroups qm sep m gs acc = none := by
  induction gs generalizing acc with
  | nil => simp at h
  | cons g gs ih =>
    obtain ⟨x, hx, hq⟩ := h
    rcases List.mem_cons.mp hx with rfl | hxs
    · simp [evalGroups, evalGroup_of_missing qm sep m x hq true]
    · cases he : evalGroup qm sep m g true with
      | none => simp [evalGroups, he]
      | some b => simpa [evalGroups, he] using ih ⟨x, hxs, hq⟩ (acc || b)

theorem findInDict_of_missing (qm : List (String × QueryFunc)) (sep : String)
    (queries : List (List Query)) (m : List (String × JSON))
    (h : ∃ g ∈ queries, ∃ q ∈ g, assocGet qm q.operator = none) :
    findInDict qm sep queries m = [] := by
  unfold findInDict
  rw [evalGroups_of_missing qm sep m queries h false]

theorem findInList_of_missing (qm : List (String × QueryFunc)) (sep : String)
    (queries : List (List Query))
    (h : ∃ g ∈ queries, ∃ q ∈ g, assocGet qm q.operator = none) (l : List JSON) :
    findInList qm sep queries l = [] := by
  induction l with
  | nil => rfl
  | cons v vs ih =>
    cases v with
    | obj m => simp [findInList, findInDict_of_missing qm sep queries m h, ih]
    | null => simpa [findInList] using ih
    | bool b => simpa [findInList] using ih
    | num q => simpa [findInList] using ih
    | str t => simpa [findInList] using ih
    | arr xs => simpa [findInList] using ih

end JsonQuery

namespace JsonQuery

/-- Claim C1: for every filter evaluation over a sequence working view —
all clause operators being present in the registry — a mapping element is
retained iff at least one group has all of its clauses true (OR across
groups, AND within a group, `specMatches`), where a clause whose path fails
to resolve counts as false (`clauseTrue`) while the remaining clauses of the
group are still evaluated; retained elements keep their original order
(`specFilter` is a filter of the input list). -/
theorem filter_is_or_of_and (s : JsonQuery) (l : List JSON)
    (hc : s.json_content = .arr l)
    (h : ∀ g ∈ s.queries, ∀ q ∈ g, (assocGet s.query_map q.operator).isSome) :
    (processQuery s).json_content =
      .arr (specFilter s.query_map s.separator s.queries l) := by
  simp [processQuery, hc, findInList_eq_specFilter s.query_map s.separator s.queries h l]

/-- Witness for C1 at the concrete instance `exC1`. -/
theorem filter_is_or_of_and_witness :
    exC1.json_content = .arr [.obj [("a", .num 1)], .obj [("a", .num 2)], .num 7,
        .obj [("b", .num 1)]] ∧
    (∀ g ∈ exC1.queries, ∀ q ∈ g, (assocGet exC1.query_map q.operator).isSome) ∧
    (processQuery exC1).json_content =
      .arr (specFilter exC1.query_map exC1.separator exC1.queries
        [.obj [("a", .num 1)], .obj [("a", .num 2)], .num 7, .obj [("b", .num 1)]]) :=
  ⟨rfl, by decide,
   filter_is_or_of_and exC1
     [.obj [("a", .num 1)], .obj [("a", .num 2)], .num 7, .obj [("b", .num 1)]]
     rfl (by decide)⟩

/-- Claim C2: if any clause of any group names an operator absent from the
registry, `__findInDict` aborts the element at once and returns its local
accumulated result list — necessarily still empty — so that element is
skipped; since every mapping element runs the same clause list, every
element of the sequence is skipped and the filter output is empty. -/
theorem unknown_operator_aborts (s : JsonQuery) (l : List JSON)
    (hc : s.json_content = .arr l)
    (h : ∃ g ∈ s.queries, ∃ q ∈ g, assocGet s.query_map q.operator = none) :
    (∀ m : List (String × JSON), findInDict s.query_map s.separator s.queries m = []) ∧
    (processQuery s).json_content = .arr [] := by
  constructor
  · intro m
    exact findInDict_of_missing s.query_map s.separator s.queries m h
  · simp [processQuery, hc, findInList_of_missing s.query_map s.separator s.queries h l]

/-- Witness for C2 at the concrete instance `exC2`. -/
theorem unknown_operator_aborts_witness :
    exC2.json_content = .arr [.obj [("a", .num 1)], .obj [("a", .num 2)]] ∧
    assocGet exC2.query_map "weird" = none ∧
    (∀ m : List (String × JSON),
       findInDict exC2.query_map exC2.separator exC2.queries m = []) ∧
    (processQuery exC2).json_content = .arr [] :=
  ⟨rfl, rfl,
   unknown_operator_aborts exC2 [.obj [("a", .num 1)], .obj [("a", .num 2)]] rfl
     ⟨[{ key := "a", operator := "weird", value := JSON.num 1 }], List.mem_singleton.mpr rfl,
      { key := "a", operator := "weird", value := JSON.num 1 }, List.mem_singleton.mpr rfl, rfl⟩⟩

end JsonQuery

namespace JsonQuery

/-- Claim C3: `__offset` on a sequence working view is a no-op for a
negative offset; otherwise the slice-or-clear decision compares the
sequence length to the LIMIT counter, not to the offset, so with the limit
inactive (0) the slice branch is always taken; concretely, `Offset(2)` with
limit inactive over `[1,2,3,4,5]` yields `[3,4,5]` at `Get()`. -/
theorem offset_compares_length_to_limit (s : JsonQuery) (l : List JSON)
    (hc : s.json_content = .arr l) :
    (s.offset_records < 0 → offsetStep s = s) ∧
    (0 ≤ s.offset_records →
       (offsetStep s).json_content =
         (if (l.length : Int) ≥ s.limit_records then JSON.arr (l.drop s.offset_records.toNat)
          else JSON.arr [])) ∧
    (s.limit_records = 0 → 0 ≤ s.offset_records →
       (offsetStep s).json_content = .arr (l.drop s.offset_records.toNat)) ∧
    (Get exC3).1 = .arr [.num 3, .num 4, .num 5] := by
  refine ⟨?_, ?_, ?_, rfl⟩
  · intro h
    simp [offsetStep, hc, h]
  · intro h
    simp only [offsetStep, hc, if_neg (not_lt.mpr h)]
    split <;> rfl
  · intro hlim hoff
    have hge : (l.length : Int) ≥ s.limit_records := by
      rw [hlim]
      exact Int.natCast_nonneg l.length
    simp only [offsetStep, hc, if_neg (not_lt.mpr hoff), if_pos hge]

/-- Witness for C3 at the concrete instance `exC3`. -/
theorem offset_compares_length_to_limit_witness :
    exC3.json_content = .arr [.num 1, .num 2, .num 3, .num 4, .num 5] ∧
    exC3.limit_records = 0 ∧ 0 ≤ exC3.offset_records ∧
    (offsetStep exC3).json_content =
      .arr ([JSON.num 1, .num 2, .num 3, .num 4, .num 5].drop exC3.offset_records.toNat) ∧
    (Get exC3).1 = .arr [.num 3, .num 4, .num 5] :=
  ⟨rfl, rfl, by decide,
   (offset_compares_length_to_limit exC3 _ rfl).2.2.1 rfl (by decide),
   (offset_compares_length_to_limit exC3 _ rfl).2.2.2⟩

end JsonQuery

namespace JsonQuery

theorem groupByList_of_missing (attr sep : String) (l : List JSON)
    (h : ∃ kvs, JSON.obj kvs ∈ l ∧ getNestedValue (.obj kvs) attr sep = none)
    (dt : List (String × List JSON)) :
    groupByList attr sep l dt = none := by
  induction l generalizing dt with
  | nil => simp at h
  | cons a rest ih =>
    obtain ⟨kvs, hmem, hnone⟩ := h
    rcases List.mem_cons.mp hmem with rfl | hrest
    · simp [groupByList, hnone]
    · cases a with
      | obj kvs2 =>
        cases hv : getNestedValue (.obj kvs2) attr sep with
        | none => simp [groupByList, hv]
        | some v => simpa [groupByList, hv] using ih ⟨kvs, hrest, hnone⟩ _
      | null => simpa [groupByList] using ih ⟨kvs, hrest, hnone⟩ dt
      | bool b => simpa [groupByList] using ih ⟨kvs, hrest, hnone⟩ dt
      | num q => simpa [groupByList] using ih ⟨kvs, hrest, hnone⟩ dt
      | str t => simpa [groupByList] using ih ⟨kvs, hrest, hnone⟩ dt
      | arr xs => simpa [groupByList] using ih ⟨kvs, hrest, hnone⟩ dt

/-- Claim C5: during `GroupBy(attr)` over a sequence working view, a mapping
element on which `attr` does not resolve aborts the whole grouping at once
and the state — working view included — stays exactly what the preceding
`__prepare` produced; no partially built grouped mapping replaces it. -/
theorem groupBy_aborts_unchanged (s : JsonQuery) (attr : String) (l : List JSON)
    (hc : (prepare s).json_content = .arr l)
    (h : ∃ kvs, JSON.obj kvs ∈ l ∧
           getNestedValue (.obj kvs) attr (prepare s).separator = none) :
    GroupBy s attr = prepare s := by
  unfold GroupBy
  simp only [hc]
  rw [groupByList_of_missing attr (prepare s).separator l h []]

/-- Witness for C5 at the concrete instance `exC5`. -/
theorem groupBy_aborts_unchanged_witness :
    (prepare exC5).json_content = .arr [.obj [("t", .str "a")], .obj [("u", .num 1)]] ∧
    JSON.obj [("u", .num 1)] ∈ [JSON.obj [("t", .str "a")], .obj [("u", .num 1)]] ∧
    getNestedValue (.obj [("u", .num 1)]) "t" (prepare exC5).separator = none ∧
    GroupBy exC5 "t" = prepare exC5 :=
  ⟨rfl, List.mem_cons_of_mem _ (List.mem_singleton.mpr rfl), rfl,
   groupBy_aborts_unchanged exC5 "t" [.obj [("t", .str "a")], .obj [("u", .num 1)]] rfl
     ⟨[("u", .num 1)], List.mem_cons_of_mem _ (List.mem_singleton.mpr rfl), rfl⟩⟩

end JsonQuery

namespace JsonQuery

theorem processQuery_shape (s : JsonQuery) :
    ∃ c, processQuery s = { s with json_content := c } := by
  unfold processQuery
  split
  · exact ⟨_, rfl⟩
  · exact ⟨s.json_content, rfl⟩

theorem distinctStep_shape (s : JsonQuery) :
    ∃ c, distinctStep s = { s with json_content := c } := by
  unfold distinctStep
  split
  · exact ⟨_, rfl⟩
  · exact ⟨_, rfl⟩

theorem onlyStep_shape (s : JsonQuery) :
    ∃ c, onlyStep s = { s with json_content := c } := by
  unfold onlyStep
  split
  · exact ⟨_, rfl⟩
  · exact ⟨_, rfl⟩

theorem offsetStep_shape (s : JsonQuery) :
    ∃ c, offsetStep s = { s with json_content := c } := by
  unfold offsetStep
  split
  · split
    · exact ⟨s.json_content, rfl⟩
    · split
      · exact ⟨_, rfl⟩
      · exact ⟨_, rfl⟩
  · exact ⟨s.json_content, rfl⟩

theorem limitStep_shape (s : JsonQuery) :
    ∃ c, limitStep s = { s with json_content := c } := by
  unfold limitStep
  split
  · split
    · exact ⟨s.json_content, rfl⟩
    · split
      · exact ⟨_, rfl⟩
      · exact ⟨s.json_content, rfl⟩
  · exact ⟨s.json_content, rfl⟩

theorem dropStep_shape (s : JsonQuery) :
    ∃ c, dropStep s = { s with json_content := c } :=
  ⟨_, rfl⟩

theorem processMaybe_shape (s : JsonQuery) :
    ∃ c, processMaybe s = { s with json_content := c } := by
  unfold processMaybe
  split
  · exact processQuery_shape s
  · exact ⟨s.json_content, rfl⟩

theorem distinctMaybe_shape (s : JsonQuery) :
    ∃ c, distinctMaybe s = { s with json_content := c } := by
  unfold distinctMaybe
  split
  · exact distinctStep_shape s
  · exact ⟨s.json_content, rfl⟩

theorem onlyMaybe_shape (s : JsonQuery) :
    ∃ c, onlyMaybe s = { s with json_content := c } := by
  unfold onlyMaybe
  split
  · exact onlyStep_shape s
  · exact ⟨s.json_content, rfl⟩

theorem offsetMaybe_shape (s : JsonQuery) :
    ∃ c, offsetMaybe s = { s with json_content := c } := by
  unfold offsetMaybe
  split
  · exact offsetStep_shape s
  · exact ⟨s.json_content, rfl⟩

theorem limitMaybe_shape (s : JsonQuery) :
    ∃ c, limitMaybe s = { s with json_content := c } := by
  unfold limitMaybe
  split
  · exact limitStep_shape s
  · exact ⟨s.json_content, rfl⟩

theorem dropMaybe_shape (s : JsonQuery) :
    ∃ c, dropMaybe s = { s with json_content := c } := by
  unfold dropMaybe
  split
  · exact dropStep_shape s
  · exact ⟨s.json_content, rfl⟩

theorem prepare_shape (s : JsonQuery) :
    ∃ c, prepare s = { s with json_content := c, query_index := 0 } := by
  obtain ⟨c1, h1⟩ := processMaybe_shape s
  obtain ⟨c2, h2⟩ := distinctMaybe_shape (processMaybe s)
  obtain ⟨c3, h3⟩ := onlyMaybe_shape (distinctMaybe (processMaybe s))
  refine ⟨c3, ?_⟩
  unfold prepare
  rw [h3, h2, h1]

theorem getState_shape (s : JsonQuery) :
    ∃ c, (Get s).2 = { s with json_content := c, query_index := 0 } := by
  obtain ⟨c1, h1⟩ := prepare_shape s
  obtain ⟨c2, h2⟩ := offsetMaybe_shape (prepare s)
  obtain ⟨c3, h3⟩ := limitMaybe_shape (offsetMaybe (prepare s))
  obtain ⟨c4, h4⟩ := dropMaybe_shape (limitMaybe (offsetMaybe (prepare s)))
  refine ⟨c4, ?_⟩
  show dropMaybe (limitMaybe (offsetMaybe (prepare s))) = _
  rw [h4, h3, h2, h1]

end JsonQuery

namespace JsonQuery

/-- Claim C6 counterexample: after `More()` on an instance with a pending
limit, offset and distinct key, all three survive with their old values —
none is back to its inactive value — because the source resets them under
mismatched attribute names (`self.limitRecords`, `self.distinctProperty`)
and never mentions the offset counter at all. -/
theorem more_counterexample :
    (More exC6).limit_records = 2 ∧ (More exC6).limit_records ≠ 0 ∧
    (More exC6).offset_records = 1 ∧ (More exC6).offset_records ≠ 0 ∧
    (More exC6).distinct_property = "k" ∧ (More exC6).distinct_property ≠ "" :=
  ⟨rfl, by decide, rfl, by decide, rfl, by decide⟩

/-- Claim C6 amended: `More()` commits the `Get()` result as the new root
and working view, and clears the pending filter groups, the projection
attributes and the drop list; the group index is 0 (reset by `__prepare`
inside `Get`), but the offset counter, the limit counter and the distinct
key all keep their previous values instead of returning to their inactive
ones. -/
theorem more_clears_only_some_state (s : JsonQuery) :
    (More s).root_json_content = (Get s).1 ∧
    (More s).json_content = (Get s).1 ∧
    (More s).queries = [] ∧
    (More s).attributes = [] ∧
    (More s).dropped_properties = [] ∧
    (More s).query_index = 0 ∧
    (More s).limit_records = s.limit_records ∧
    (More s).offset_records = s.offset_records ∧
    (More s).distinct_property = s.distinct_property := by
  obtain ⟨c, hc⟩ := getState_shape s
  unfold More
  refine ⟨rfl, rfl, rfl, rfl, rfl, ?_, ?_, ?_, ?_⟩
  · show (Get s).2.query_index = 0
    rw [hc]
  · show (Get s).2.limit_records = s.limit_records
    rw [hc]
  · show (Get s).2.offset_records = s.offset_records
    rw [hc]
  · show (Get s).2.distinct_property = s.distinct_property
    rw [hc]

end JsonQuery

namespace JsonQuery

theorem appendToLast_length (gs : List (List Query)) (q : Query) (h : gs ≠ []) :
    (appendToLast gs q).length = gs.length := by
  induction gs with
  | nil => simp at h
  | cons g rest ih =>
    cases rest with
    | nil => simp [appendToLast]
    | cons g2 rest2 =>
      have := ih (by simp)
      simpa [appendToLast] using this

theorem appendAt_last (gs : List (List Query)) (i : Nat) (q : Query)
    (h : i + 1 = gs.length) : appendAt gs i q = some (appendToLast gs q) := by
  induction gs generalizing i with
  | nil => simp at h
  | cons g rest ih =>
    cases rest with
    | nil =>
      have hi : i = 0 := by simpa using h
      subst hi
      simp [appendAt, appendToLast]
    | cons g2 rest2 =>
      cases i with
      | zero =>
        simp at h
      | succ n =>
        have hn : n + 1 = (g2 :: rest2).length := by simpa using h
        simp [appendAt, appendToLast, ih n hn]

end JsonQuery

namespace JsonQuery

/-- Claim C7 counterexample: on a fresh builder whose first filter call is
`OrWhere`, the next `Where` raises `IndexError` (the group index points one
past the only group), so not every interleaving of the two calls succeeds. -/
theorem where_after_orwhere_counterexample :
    Where (OrWhere exC7 "a" "eq" .null) "b" "eq" .null = none := rfl

/-- Claim C7 amended: `Where` appends its clause to the group the current
index points at and `OrWhere` appends a new one-clause group while
incrementing the index.  When the index points at the last group — as after
any interleaving that begins with `Where` — this matches the claim: `Where`
appends to the last group (`appendToLast`), touching no other group, and
`OrWhere` starts a new group that becomes the current one, and neither call
fails.  But on a fresh builder whose first call is `OrWhere` the index ends
up one past the last group and a subsequent `Where` fails with an index
error. -/
theorem where_orwhere_amended (s : JsonQuery) (k c : String) (v : JSON) :
    (s.queries = [] → s.query_index = 0 →
       Where s k c v = some { s with queries := [[Query.mk k c v]] } ∧
       goodIdx { s with queries := [[Query.mk k c v]] } ∧
       (∀ k2 c2 v2, Where (OrWhere s k c v) k2 c2 v2 = none)) ∧
    (goodIdx s →
       Where s k c v = some { s with queries := appendToLast s.queries (Query.mk k c v) } ∧
       goodIdx { s with queries := appendToLast s.queries (Query.mk k c v) }) ∧
    OrWhere s k c v = { s with query_index := s.query_index + 1,
                               queries := s.queries ++ [[Query.mk k c v]] } ∧
    (goodIdx s → goodIdx (OrWhere s k c v)) := by
  refine ⟨?_, ?_, rfl, ?_⟩
  · intro hq hi
    refine ⟨?_, ?_, ?_⟩
    · simp [Where, hq, hi]
    · show s.query_index + 1 = 1
      omega
    · intro k2 c2 v2
      simp [Where, OrWhere, hq, hi, appendAt]
  · intro hg
    have hlen : s.queries.length ≠ 0 := by
      unfold goodIdx at hg
      omega
    have hguard : ¬(s.query_index = 0 ∧ s.queries.length = 0) := by
      intro hand
      exact hlen hand.2
    have happ := appendAt_last s.queries s.query_index (Query.mk k c v) hg
    constructor
    · simp [Where, hguard, happ]
      intro h0 hnil
      exact absurd (by simp [hnil]) hlen
    · show s.query_index + 1 = (appendToLast s.queries (Query.mk k c v)).length
      rw [appendToLast_length s.queries (Query.mk k c v) (by
        intro hnil
        exact hlen (by simp [hnil]))]
      exact hg
  · intro hg
    show s.query_index + 1 + 1 = (s.queries ++ [[Query.mk k c v]]).length
    unfold goodIdx at hg
    simp [List.length_append]
    omega

/-- Witness for C7 at concrete calls on the fresh builder `exC7`. -/
theorem where_orwhere_amended_witness :
    exC7.queries = [] ∧ exC7.query_index = 0 ∧
    (Where exC7 "a" "eq" .null = some { exC7 with queries := [[Query.mk "a" "eq" .null]] } ∧
     goodIdx { exC7 with queries := [[Query.mk "a" "eq" .null]] } ∧
     (∀ k2 c2 v2, Where (OrWhere exC7 "a" "eq" .null) k2 c2 v2 = none)) :=
  ⟨rfl, rfl, (where_orwhere_amended exC7 "a" "eq" .null).1 rfl rfl⟩

end JsonQuery

namespace JsonQuery

/-- Claim C8: `Get()` clears none of the pending builder state of spec
section 3 — filter groups, projection attributes, drop list, offset and
limit counters, distinct key all survive — so terminal calls are not
idempotent: on `exC8` (offset 2 over `[1,2,3,4,5]`) the first `Get()`
returns `[3,4,5]` and a second `Get()` re-applies the offset to the already
shaped view, returning the different, shorter `[5]`. -/
theorem get_keeps_pending_state_not_idempotent (s : JsonQuery) :
    ((Get s).2.queries = s.queries ∧
     (Get s).2.attributes = s.attributes ∧
     (Get s).2.dropped_properties = s.dropped_properties ∧
     (Get s).2.offset_records = s.offset_records ∧
     (Get s).2.limit_records = s.limit_records ∧
     (Get s).2.distinct_property = s.distinct_property) ∧
    (Get exC8).1 = .arr [.num 3, .num 4, .num 5] ∧
    (Get (Get exC8).2).1 = .arr [.num 5] ∧
    (Get (Get exC8).2).1 ≠ (Get exC8).1 := by
  obtain ⟨c, hc⟩ := getState_shape s
  refine ⟨⟨?_, ?_, ?_, ?_, ?_, ?_⟩, rfl, rfl, ?_⟩
  · rw [hc]
  · rw [hc]
  · rw [hc]
  · rw [hc]
  · rw [hc]
  · rw [hc]
  · show JSON.arr [.num 5] ≠ JSON.arr [.num 3, .num 4, .num 5]
    simp

end JsonQuery

namespace JsonQuery

/-- Claim C9: `Sort` first runs `__prepare` — pending filters, distinct and
projection are applied — and stable-sorts the PREPARED view, while `SortBy`
sorts the CURRENT working view directly: its result view is a sort of
`s.json_content` itself and every piece of pending builder state is left
both unapplied and untouched. -/
theorem sort_prepares_sortBy_does_not (s : JsonQuery) (key : Option (JSON → JSON))
    (rev : Bool) (attr : String) (l lp : List JSON)
    (hp : (prepare s).json_content = .arr lp)
    (hc : s.json_content = .arr l) :
    Sort' s key rev =
      (pySortList key rev lp).map (fun l2 => { prepare s with json_content := .arr l2 }) ∧
    SortBy s attr rev =
      (pySortByAttr attr rev l).map (fun l2 => { s with json_content := .arr l2 }) ∧
    (∀ s2, SortBy s attr rev = some s2 →
       s2.queries = s.queries ∧ s2.distinct_property = s.distinct_property ∧
       s2.attributes = s.attributes ∧ s2.query_index = s.query_index ∧
       s2.offset_records = s.offset_records ∧ s2.limit_records = s.limit_records ∧
       s2.dropped_properties = s.dropped_properties) := by
  refine ⟨?_, ?_, ?_⟩
  · unfold Sort'
    simp only [hp]
  · unfold SortBy
    simp only [hc]
  · intro s2 h2
    unfold SortBy at h2
    simp only [hc] at h2
    cases hsort : pySortByAttr attr rev l with
    | none =>
      rw [hsort] at h2
      simp at h2
    | some l2 =>
      rw [hsort] at h2
      simp only [Option.map_some', Option.some.injEq] at h2
      subst h2
      exact ⟨rfl, rfl, rfl, rfl, rfl, rfl, rfl⟩

/-- Witness for C9 at the concrete instance `exC9`. -/
theorem sort_prepares_sortBy_does_not_witness :
    (prepare exC9).json_content
      = .arr [.obj [("a", .str "b")], .obj [("a", .str "a")]] ∧
    exC9.json_content = .arr [.obj [("a", .str "b")], .obj [("a", .str "a")]] ∧
    SortBy exC9 "a" false =
      (pySortByAttr "a" false [.obj [("a", .str "b")], .obj [("a", .str "a")]]).map
        (fun l2 => { exC9 with json_content := .arr l2 }) ∧
    SortBy exC9 "a" false =
      some { exC9 with json_content := .arr [.obj [("a", .str "a")], .obj [("a", .str "b")]] } :=
  ⟨rfl, rfl,
   (sort_prepares_sortBy_does_not exC9 none false "a"
      [.obj [("a", .str "b")], .obj [("a", .str "a")]]
      [.obj [("a", .str "b")], .obj [("a", .str "a")]] rfl rfl).2.1,
   rfl⟩

end JsonQuery

namespace JsonQuery

/-- Claim C10 counterexample: over the prepared sequence `[null]` — a
sequence, as the `isList` conjunct records — `First()` and `Last()` return
Python `None`, the very same "no value" result the non-sequence case
(`exC10c`) produces, so "no value" is NOT returned only when the prepared
view is not a sequence. -/
theorem first_no_value_inside_sequence_counterexample :
    (prepare exC10).json_content = .arr [.null] ∧
    (prepare exC10).json_content.isList = true ∧
    First exC10 = some .null ∧
    Last exC10 = some .null ∧
    First exC10c = some .null ∧
    Last exC10c = some .null :=
  ⟨rfl, rfl, rfl, rfl, rfl, rfl⟩

/-- Claim C10 amended: `First()`/`Last()` return the "no value" result when
the prepared working view is not a sequence — and also when it is a
sequence whose first/last element is itself null, since the returned
element is then indistinguishable from Python `None`; on an EMPTY prepared
sequence they are fatal with an out-of-range error instead of returning
"no value". -/
theorem first_last_semantics (s : JsonQuery) :
    ((prepare s).json_content.isList = false →
       First s = some .null ∧ Last s = some .null) ∧
    ((prepare s).json_content = .arr [] → First s = none ∧ Last s = none) ∧
    (∀ x xs, (prepare s).json_content = .arr (x :: xs) →
       First s = some x ∧ Last s = some (xs.getLastD x)) := by
  refine ⟨?_, ?_, ?_⟩
  · intro h
    cases hc : (prepare s).json_content with
    | arr l => rw [hc] at h; simp [JSON.isList] at h
    | null => simp [First, Last, hc]
    | bool b => simp [First, Last, hc]
    | num q => simp [First, Last, hc]
    | str t => simp [First, Last, hc]
    | obj kvs => simp [First, Last, hc]
  · intro hc
    simp [First, Last, hc]
  · intro x xs hc
    simp [First, Last, hc]

/-- Witness for C10 at the three concrete instances `exC10`, `exC10b` and
`exC10c`. -/
theorem first_last_semantics_witness :
    ((prepare exC10c).json_content.isList = false ∧
      First exC10c = some .null ∧ Last exC10c = some .null) ∧
    ((prepare exC10b).json_content = .arr [] ∧
      First exC10b = none ∧ Last exC10b = none) ∧
    ((prepare exC10).json_content = .arr [.null] ∧
      First exC10 = some .null ∧ Last exC10 = some (([] : List JSON).getLastD .null)) :=
  ⟨⟨rfl, (first_last_semantics exC10c).1 rfl⟩,
   ⟨rfl, (first_last_semantics exC10b).2.1 rfl⟩,
   ⟨rfl, (first_last_semantics exC10).2.2 .null [] rfl⟩⟩

end JsonQuery

namespace JsonQuery

theorem toNumQ_obj (kvs : List (String × JSON)) : toNumQ (.obj kvs) = none := rfl

theorem toNumQ_null : toNumQ .null = none := rfl

theorem toNumQ_str (t : String) : toNumQ (.str t) = none := rfl

theorem toNumQ_arr (xs : List JSON) : toNumQ (.arr xs) = none := rfl

theorem floatsLoop_of_bad (p : String) (ps : List String) (l : List JSON)
    (h : ∃ kvs, JSON.obj kvs ∈ l ∧ (assocGet kvs p).bind toNumQ = none)
    (acc : List ℚ) :
    floatsLoop (p :: ps) l acc = [] := by
  induction l generalizing acc with
  | nil => simp at h
  | cons a rest ih =>
    obtain ⟨kvs, hmem, hbad⟩ := h
    rcases List.mem_cons.mp hmem with rfl | hrest
    · simp [floatsLoop, toNumQ_obj, hbad]
    · cases a with
      | obj kvs2 =>
        cases hv : (assocGet kvs2 p).bind toNumQ with
        | none => simp [floatsLoop, toNumQ_obj, hv]
        | some q =>
          simp only [floatsLoop, toNumQ_obj, List.headD, hv, List.length_cons]
          simpa using ih ⟨kvs, hrest, hbad⟩ (acc ++ [q])
      | num q => simp [floatsLoop, toNumQ]
      | bool b => simp [floatsLoop, toNumQ]
      | null => simpa [floatsLoop, toNumQ_null] using ih ⟨kvs, hrest, hbad⟩ acc
      | str t => simpa [floatsLoop, toNumQ_str] using ih ⟨kvs, hrest, hbad⟩ acc
      | arr xs => simpa [floatsLoop, toNumQ_arr] using ih ⟨kvs, hrest, hbad⟩ acc

/-- Claim C4 counterexample: the element `{"x": true}` holds a non-number —
a JSON boolean — at the first supplied property, yet the collected value
set is `[1]`, not empty: Python's `isinstance(dv, (float, int))` accepts a
`bool` and `float(True)` is `1.0`.  `Sum` hence returns 1 and `Min` does
not raise, contradicting the all-or-nothing reading of "non-numeric". -/
theorem aggregation_bool_counterexample :
    getFloatValFromArray [.obj [("x", .bool true)]] ["x"] = [1] ∧
    ([1] : List ℚ) ≠ [] ∧
    Sum exC4 ["x"] = 1 ∧
    (1 : ℚ) ≠ 0 ∧
    Min exC4 ["x"] = some 1 := by
  refine ⟨rfl, by simp, ?_, one_ne_zero, rfl⟩
  show List.sum [(1 : ℚ)] = 1
  simp

/-- Claim C4 amended: over a sequence working view, an element that is a
mapping whose first supplied property is absent, null, or holds a value
failing Python's numeric `isinstance` check — booleans PASS that check and
are collected as 0.0/1.0 — makes the collected value set empty
(all-or-nothing); over the collected value set, `Sum` of an empty set is 0
while `Min`, `Max` and `Avg` are fatal on an empty set. -/
theorem aggregation_all_or_nothing (l : List JSON) (p : String) (ps : List String)
    (s : JsonQuery) (props : List String)
    (hbad : ∃ kvs, JSON.obj kvs ∈ l ∧ (assocGet kvs p).bind toNumQ = none)
    (hempty : getAggregationValues s props = []) :
    getFloatValFromArray l (p :: ps) = [] ∧
    Sum s props = 0 ∧ Min s props = none ∧ Max s props = none ∧ Avg s props = none := by
  refine ⟨floatsLoop_of_bad p ps l hbad [], ?_, ?_, ?_, ?_⟩
  · unfold Sum
    rw [hempty]
    rfl
  · unfold Min
    rw [hempty]
  · unfold Max
    rw [hempty]
  · unfold Avg
    rw [hempty]

/-- Witness for C4 at the concrete instance `exC4b` (first property holds a
string). -/
theorem aggregation_all_or_nothing_witness :
    (JSON.obj [("x", .str "s")] ∈ [JSON.obj [("x", .str "s")]] ∧
     (assocGet [("x", JSON.str "s")] "x").bind toNumQ = none) ∧
    getAggregationValues exC4b ["x"] = [] ∧
    getFloatValFromArray [.obj [("x", .str "s")]] ["x"] = [] ∧
    Sum exC4b ["x"] = 0 ∧ Min exC4b ["x"] = none ∧ Max exC4b ["x"] = none ∧
    Avg exC4b ["x"] = none :=
  ⟨⟨List.mem_singleton.mpr rfl, rfl⟩, rfl,
   aggregation_all_or_nothing [.obj [("x", .str "s")]] "x" [] exC4b ["x"]
     ⟨[("x", .str "s")], List.mem_singleton.mpr rfl, rfl⟩ rfl⟩

end JsonQuery

namespace JsonQuery

/-- Witness for C6's amended theorem at the concrete instance `exC6`. -/
theorem more_clears_only_some_state_witness :
    (More exC6).queries = [] ∧
    (More exC6).limit_records = exC6.limit_records ∧
    (More exC6).offset_records = exC6.offset_records ∧
    (More exC6).distinct_property = exC6.distinct_property :=
  ⟨(more_clears_only_some_state exC6).2.2.1,
   (more_clears_only_some_state exC6).2.2.2.2.2.2.1,
   (more_clears_only_some_state exC6).2.2.2.2.2.2.2.1,
   (more_clears_only_some_state exC6).2.2.2.2.2.2.2.2⟩

/-- Witness for C8 at the concrete instance `exC8`. -/
theorem get_keeps_pending_state_not_idempotent_witness :
    (Get exC8).2.offset_records = exC8.offset_records ∧
    (Get exC8).1 = .arr [.num 3, .num 4, .num 5] ∧
    (Get (Get exC8).2).1 = .arr [.num 5] :=
  ⟨(get_keeps_pending_state_not_idempotent exC8).1.2.2.2.1,
   (get_keeps_pending_state_not_idempotent exC8).2.1,
   (get_keeps_pending_state_not_idempotent exC8).2.2.1⟩

end JsonQuery
